import Mathlib

/-!
Shallow embedding of the video-voter web application: the flat-file video
store (`server/apps/videos/videos.py`), the HTTP handlers (`server/app.py`)
and the metrics instrumentation configuration
(`server/apps/instrumentation/instrumentation.py`).

The persisted JSON file is modelled as a `List Video`; every store
operation reads the whole collection and, for the voting operations,
writes the transformed collection back, so the file-level read-modify-write
is explicit state passing on `List Video`.  Python exceptions are modelled
with `Except`, the absent-file / JSON layer (`json.load` then `json.dump`)
round-trips the collection unchanged, so write-then-read is the identity on
the modelled state.
-/

/-- A video record: the JSON object `\x7bid, title, likes, dislikes, ...\x7d`.
Counters are modelled as `Int` (Python integers); any additional JSON
fields are carried in `extra` and passed through unchanged. -/
structure Video where
  id : String
  title : String
  likes : Int
  dislikes : Int
  extra : List (String × String)
deriving Repr, DecidableEq

namespace Videos

/-- Helper for the Python substring test: `headMatch needle hay` holds when
`needle` occurs at the very start of `hay`. -/
def headMatch : List Char → List Char → Bool
  | [], _ => true
  | _ :: _, [] => false
  | a :: as, b :: bs => a == b && headMatch as bs

/-- Python `needle in hay` on strings: `needle` occurs as a contiguous
substring of `hay`. -/
def containsSub (needle : List Char) : List Char → Bool
  | [] => needle.isEmpty
  | c :: t => headMatch needle (c :: t) || containsSub needle t

/-- Python `str.lower()` applied characterwise (ASCII case folding). -/
def lowerStr (s : List Char) : List Char := s.map Char.toLower

/-- `videos.list(title_filter)`: load the collection and return, in file
order, the ids of the videos whose lowered title contains the lowered
filter as a substring. -/
def list (videos : List Video) (title_filter : String) : List String :=
  (videos.filter (fun video =>
    containsSub (lowerStr title_filter.toList) (lowerStr video.title.toList))).map
    (fun video => video.id)

/-- `videos.get(id)`: linear scan returning the first record whose id
matches; raises `ValueError(f"ID {id} does not exists")` when none does. -/
def get : List Video → String → Except String Video
  | [], id => .error ("ID " ++ id ++ " does not exists")
  | video :: rest, id => if video.id = id then .ok video else get rest id

/-- Body of the scan loop of `videos.like`: the matching record gets
`video["likes"] += 1`, every other record is untouched. -/
def stepLike (id : String) (video : Video) : Video :=
  if video.id = id then { video with likes := video.likes + 1 } else video

/-- Body of the scan loop of `videos.dislike`. -/
def stepDislike (id : String) (video : Video) : Video :=
  if video.id = id then { video with dislikes := video.dislikes + 1 } else video

/-- `videos.like(id)`: load the collection, run the non-breaking scan
(each matching record is incremented in place; the loop never breaks),
then write the whole collection back.  The artificial `time.sleep` only
delays the write and has no effect on the resulting state. -/
def like (videos : List Video) (id : String) : List Video :=
  videos.map (stepLike id)

/-- `videos.dislike(id)`: same scan incrementing `dislikes`, no delay. -/
def dislike (videos : List Video) (id : String) : List Video :=
  videos.map (stepDislike id)

end Videos

/-- Net score `likes - dislikes` used by the index view for ranking. -/
def netScore (video : Video) : Int := video.likes - video.dislikes

/-- Static description of an OTel counter created in `app.py`. -/
structure CounterSpec where
  name : String
  description : String
deriving Repr, DecidableEq

/-- Static description of an OTel histogram created in `app.py`. -/
structure HistogramSpec where
  name : String
  unit : String
  description : String
deriving Repr, DecidableEq

/-- Configuration of the PeriodicExportingMetricReader built in
`instrumentation.init`. -/
structure ReaderConfig where
  export_interval_millis : Nat
  export_timeout_millis : Nat
deriving Repr, DecidableEq

/-- `meter_likes = default_meter.create_counter("video_likes", ...)`. -/
def meter_likes : CounterSpec :=
  { name := "video_likes", description := "Calls to the Like Endpoint" }

/-- `meter_dislikes = default_meter.create_counter("video_dislikes", ...)`. -/
def meter_dislikes : CounterSpec :=
  { name := "video_dislikes", description := "Calls to the Dislike Endpoint" }

/-- `meter_latency_get = default_meter.create_histogram(...)` in `app.py`. -/
def meter_latency_get : HistogramSpec :=
  { name := "get_video_latency_milliseconds", unit := "ms",
    description := "Latency of Video information retrieval" }

/-- The reader built in `instrumentation.init`:
`PeriodicExportingMetricReader(exporter, export_interval_millis=15000,
export_timeout_millis=5000)`. -/
def instrumentationReader : ReaderConfig :=
  { export_interval_millis := 15000, export_timeout_millis := 5000 }

/-- Observable outcome of a like/dislike handler: the new persisted state,
the response body and status, and the counter increment it records
(counter name together with the id attribute). -/
structure VoteResult where
  state : List Video
  body : String
  status : Nat
  counter : String × String
deriving Repr, DecidableEq

/-- Handler `GET /api/v1/video/<id>/like`: records the counter, calls
`videos.like(id)`, returns `("OK", 200)`. -/
def like_video (st : List Video) (id : String) : VoteResult :=
  { state := Videos.like st id, body := "OK", status := 200,
    counter := (meter_likes.name, id) }

/-- Handler `GET /api/v1/video/<id>/dislike`. -/
def dislike_video (st : List Video) (id : String) : VoteResult :=
  { state := Videos.dislike st id, body := "OK", status := 200,
    counter := (meter_dislikes.name, id) }

/-- Handler `GET /api/v1/video/<id>`: calls `videos.get(id)` and records
the elapsed time into the latency histogram; the second component names
the histogram the recording goes to. -/
def get_video_details (st : List Video) (id : String) : Except String Video × String :=
  (Videos.get st id, meter_latency_get.name)

/-- The index view comprehension
`[get_video_details(i) for i in videos.list("")]`: fetch every listed id;
an unhandled `ValueError` in any fetch aborts the request (`none`). -/
def fetchAll (st : List Video) : List String → Option (List Video)
  | [] => some []
  | i :: rest =>
    match Videos.get st i with
    | .error _ => none
    | .ok v => (fetchAll st rest).map (fun vs => v :: vs)

/-- Handler `GET /`: fetch the detail record of every listed video, then
`sorted(all_videos, key=net score, reverse=True)` — a stable sort,
descending by net score. -/
def index (st : List Video) : Option (List Video) :=
  (fetchAll st (Videos.list st "")).map
    (fun all_videos => all_videos.mergeSort (fun a b => decide (netScore b ≤ netScore a)))

/-- The four Store operations reachable from the HTTP surface. -/
inductive Op where
  | list (title_filter : String)
  | get (id : String)
  | like (id : String)
  | dislike (id : String)
deriving Repr, DecidableEq

/-- Effect of each Store operation on the persisted collection: the read
operations never write the file, the vote operations rewrite it with the
scanned collection. -/
def Op.apply : Op → List Video → List Video
  | .list _, st => st
  | .get _, st => st
  | .like id, st => Videos.like st id
  | .dislike id, st => Videos.dislike st id

/-- Sample records used as concrete witnesses. -/
def vA : Video :=
  { id := "a", title := "Cats are great", likes := 5, dislikes := 1,
    extra := [("owner", "x")] }

/-- Sample record with a distinct id. -/
def vB : Video :=
  { id := "b", title := "Dogs", likes := 3, dislikes := 0, extra := [] }

/-- Third sample record. -/
def vC : Video :=
  { id := "c", title := "Birds", likes := 5, dislikes := 5, extra := [] }

/-- First of two records sharing the id `dup`. -/
def dupFirst : Video :=
  { id := "dup", title := "first copy", likes := 0, dislikes := 0, extra := [] }

/-- Second of two records sharing the id `dup`. -/
def dupSecond : Video :=
  { id := "dup", title := "second copy", likes := 3, dislikes := 4, extra := [] }

/-- Tie-breaking sample: same net score as `tieSecond`. -/
def tieFirst : Video :=
  { id := "t1", title := "Tie one", likes := 2, dislikes := 0, extra := [] }

/-- Tie-breaking sample: same net score as `tieFirst`. -/
def tieSecond : Video :=
  { id := "t2", title := "Tie two", likes := 3, dislikes := 1, extra := [] }

/-! ## Helper lemmas -/

theorem headMatch_iff (needle : List Char) :
    ∀ hay, Videos.headMatch needle hay = true ↔ ∃ r, hay = needle ++ r := by
  induction needle with
  | nil => intro hay; simp [Videos.headMatch]
  | cons a as ih =>
    intro hay
    cases hay with
    | nil => simp [Videos.headMatch]
    | cons b bs =>
      simp only [Videos.headMatch, Bool.and_eq_true, beq_iff_eq, ih bs,
        List.cons_append, List.cons.injEq]
      constructor
      · rintro ⟨hab, r, hr⟩
        exact ⟨r, hab.symm, hr⟩
      · rintro ⟨r, hba, hr⟩
        exact ⟨hba.symm, r, hr⟩

theorem containsSub_iff (needle : List Char) :
    ∀ hay, Videos.containsSub needle hay = true ↔ ∃ l r, hay = l ++ needle ++ r := by
  intro hay
  induction hay with
  | nil =>
    simp only [Videos.containsSub, List.isEmpty_iff]
    constructor
    · rintro rfl
      exact ⟨[], [], rfl⟩
    · rintro ⟨l, r, hlr⟩
      rcases List.append_eq_nil.mp (List.append_eq_nil.mp hlr.symm).1 with ⟨-, h2⟩
      exact h2
  | cons c t ih =>
    simp only [Videos.containsSub, Bool.or_eq_true, headMatch_iff, ih]
    constructor
    · rintro (⟨r, hr⟩ | ⟨l, r, hlr⟩)
      · exact ⟨[], r, by simp [hr]⟩
      · exact ⟨c :: l, r, by simp [hlr]⟩
    · rintro ⟨l, r, hlr⟩
      cases l with
      | nil =>
        exact Or.inl ⟨r, by simpa using hlr⟩
      | cons x xs =>
        rw [List.cons_append, List.cons_append, List.cons.injEq] at hlr
        exact Or.inr ⟨xs, r, hlr.2⟩

theorem containsSub_nil (hay : List Char) : Videos.containsSub [] hay = true := by
  cases hay <;> simp [Videos.containsSub, Videos.headMatch]

theorem list_empty_filter (st : List Video) :
    Videos.list st "" = st.map (fun v => v.id) := by
  have hnil : ("" : String).toList = [] := rfl
  simp [Videos.list, hnil, Videos.lowerStr, containsSub_nil]

theorem iterate_map {α : Type} (g : α → α) :
    ∀ (n : Nat) (l : List α), (fun s => List.map g s)^[n] l = l.map g^[n] := by
  intro n
  induction n with
  | zero => intro l; simp
  | succ n ih =>
    intro l
    rw [Function.iterate_succ_apply]
    simp only [ih (l.map g), List.map_map]
    rw [Function.iterate_succ]

theorem stepLike_iterate (i : String) :
    ∀ (n : Nat) (v : Video),
      (Videos.stepLike i)^[n] v =
        if v.id = i then { v with likes := v.likes + n } else v := by
  intro n
  induction n with
  | zero =>
    intro v
    cases v
    split <;> simp
  | succ n ih =>
    intro v
    rw [Function.iterate_succ_apply, Videos.stepLike]
    split
    · rw [ih]
      simp only [if_pos (by assumption)]
      cases v
      simp only [Video.mk.injEq, true_and, and_true]
      push_cast
      ring
    · rw [ih]
      simp only [if_neg (by assumption)]

theorem stepDislike_iterate (i : String) :
    ∀ (n : Nat) (v : Video),
      (Videos.stepDislike i)^[n] v =
        if v.id = i then { v with dislikes := v.dislikes + n } else v := by
  intro n
  induction n with
  | zero =>
    intro v
    cases v
    split <;> simp
  | succ n ih =>
    intro v
    rw [Function.iterate_succ_apply, Videos.stepDislike]
    split
    · rw [ih]
      simp only [if_pos (by assumption)]
      cases v
      simp only [Video.mk.injEq, true_and, and_true]
      push_cast
      ring
    · rw [ih]
      simp only [if_neg (by assumption)]

theorem get_characterization (st : List Video) (i : String) :
    match Videos.get st i with
    | .ok w => w.id = i ∧ ∃ v ∈ st, v.id = i
    | .error e => e = "ID " ++ i ++ " does not exists" ∧ ∀ v ∈ st, v.id ≠ i := by
  induction st with
  | nil => simp [Videos.get]
  | cons u rest ih =>
    by_cases hu : u.id = i
    · simp [Videos.get, hu]
    · simp only [Videos.get, if_neg hu]
      revert ih
      cases Videos.get rest i with
      | ok w =>
        rintro ⟨hw, v, hv, hvi⟩
        exact ⟨hw, v, List.mem_cons_of_mem u hv, hvi⟩
      | error e =>
        rintro ⟨he, hall⟩
        refine ⟨he, ?_⟩
        intro v hv
        rcases List.mem_cons.mp hv with rfl | hv2
        · exact hu
        · exact hall v hv2

theorem get_of_mem_nodup (st : List Video) (hnd : (st.map Video.id).Nodup)
    (v : Video) (hv : v ∈ st) : Videos.get st v.id = .ok v := by
  induction st with
  | nil => cases hv
  | cons u rest ih =>
    rw [List.map_cons, List.nodup_cons] at hnd
    rcases List.mem_cons.mp hv with rfl | hv2
    · simp [Videos.get]
    · have hne : u.id ≠ v.id := by
        intro he
        exact hnd.1 (he ▸ List.mem_map_of_mem Video.id hv2)
      simp only [Videos.get, if_neg hne]
      exact ih hnd.2 hv2

theorem fetchAll_of_get_ok (st : List Video) :
    ∀ sub : List Video, (∀ v ∈ sub, Videos.get st v.id = .ok v) →
      fetchAll st (sub.map Video.id) = some sub := by
  intro sub
  induction sub with
  | nil => intro _; rfl
  | cons v rest ih =>
    intro h
    have hv : Videos.get st v.id = .ok v := h v (List.mem_cons_self v rest)
    rw [List.map_cons]
    simp only [fetchAll, hv]
    rw [ih (fun w hw => h w (List.mem_cons_of_mem v hw))]
    rfl

theorem index_of_nodup (st : List Video) (hnd : (st.map Video.id).Nodup) :
    index st =
      some (st.mergeSort (fun a b => decide (netScore b ≤ netScore a))) := by
  rw [index, list_empty_filter]
  rw [fetchAll_of_get_ok st st (fun v hv => get_of_mem_nodup st hnd v hv)]
  rfl

theorem netCmp_trans (a b c : Video) :
    decide (netScore b ≤ netScore a) → decide (netScore c ≤ netScore b) →
      decide (netScore c ≤ netScore a) = true := by
  simp only [decide_eq_true_eq]
  intro h1 h2
  exact le_trans h2 h1

theorem netCmp_total (a b : Video) :
    (decide (netScore b ≤ netScore a) || decide (netScore a ≤ netScore b)) = true := by
  simp only [Bool.or_eq_true, decide_eq_true_eq]
  exact le_total (netScore b) (netScore a)

/-! ## Claim theorems -/

/-- Claim C1: for a collection in which the id occurs exactly once,
iterating `videos.like(id)` N times increments that record's likes by
exactly N while leaving its dislikes (and every other field) unchanged,
and `videos.dislike(id)` symmetrically increments dislikes leaving likes
unchanged; N = 1 is the single-call case. -/
theorem like_dislike_increment (st : List Video) (i : String)
    (huniq : (st.filter (fun v => v.id == i)).length = 1)
    (j : Nat) (v : Video) (hj : st[j]? = some v) (hvi : v.id = i) (n : Nat) :
    ((fun s => Videos.like s i)^[n] st)[j]? = some { v with likes := v.likes + n } ∧
    ((fun s => Videos.dislike s i)^[n] st)[j]? = some { v with dislikes := v.dislikes + n } := by
  constructor
  · show ((fun s => List.map (Videos.stepLike i) s)^[n] st)[j]? = _
    rw [iterate_map, List.getElem?_map, hj, Option.map_some', stepLike_iterate,
      if_pos hvi]
  · show ((fun s => List.map (Videos.stepDislike i) s)^[n] st)[j]? = _
    rw [iterate_map, List.getElem?_map, hj, Option.map_some', stepDislike_iterate,
      if_pos hvi]

/-- Witness for C1 at a concrete two-record store and N = 2. -/
theorem like_dislike_increment_witness :
    (([vA, vB].filter (fun v => v.id == "a")).length = 1) ∧
    ((fun s => Videos.like s "a")^[2] [vA, vB])[0]? = some { vA with likes := vA.likes + 2 } ∧
    ((fun s => Videos.dislike s "a")^[2] [vA, vB])[0]? = some { vA with dislikes := vA.dislikes + 2 } := by
  have h := like_dislike_increment [vA, vB] "a" (by decide) 0 vA (by decide) (by decide) 2
  exact ⟨by decide, h.1, h.2⟩

/-- Claim C2: `videos.get(id)` returns a record whose id equals the
requested id exactly when some record has that id, and raises the
ValueError message exactly when none does. -/
theorem get_found_or_error (st : List Video) (i : String) :
    ((∃ v ∈ st, v.id = i) → ∃ w, Videos.get st i = .ok w ∧ w.id = i) ∧
    ((∀ v ∈ st, v.id ≠ i) →
      Videos.get st i = .error ("ID " ++ i ++ " does not exists")) ∧
    (∀ w, Videos.get st i = .ok w → w.id = i ∧ ∃ v ∈ st, v.id = i) := by
  have h := get_characterization st i
  revert h
  cases hg : Videos.get st i with
  | ok w =>
    intro h
    refine ⟨fun _ => ⟨w, rfl, h.1⟩, fun hall => ?_, ?_⟩
    · rcases h.2 with ⟨v, hv, hvi⟩
      exact absurd hvi (hall v hv)
    · intro u hu
      injection hu with hu
      subst hu
      exact h
  | error e =>
    intro h
    refine ⟨fun hex => ?_, fun _ => by rw [h.1], ?_⟩
    · rcases hex with ⟨v, hv, hvi⟩
      exact absurd hvi (h.2 v hv)
    · intro u hu
      cases hu

/-- Witness for C2 at a concrete store: present id found with matching id
field, absent id raises the ValueError message. -/
theorem get_found_or_error_witness :
    (∃ w, Videos.get [vA, vB] "b" = .ok w ∧ w.id = "b") ∧
    Videos.get [vA, vB] "z" = .error ("ID " ++ "z" ++ " does not exists") := by
  refine ⟨(get_found_or_error [vA, vB] "b").1 ⟨vB, by decide, by decide⟩, ?_⟩
  exact (get_found_or_error [vA, vB] "z").2.1 (by decide)

/-- Claim C3: `videos.list(f)` returns exactly the ids of the videos whose
lowered title contains the lowered filter as a contiguous substring, in
file order; the substring test is characterised by an explicit
decomposition, the empty filter matches every video, and the spec's
example "CAT" matches "Cats are great". -/
theorem list_filter_spec :
    (∀ (needle hay : List Char),
        Videos.containsSub needle hay = true ↔ ∃ l r, hay = l ++ needle ++ r) ∧
    (∀ (st : List Video) (f : String),
        Videos.list st f = (st.filter (fun v =>
          Videos.containsSub (Videos.lowerStr f.toList)
            (Videos.lowerStr v.title.toList))).map (fun v => v.id)) ∧
    (∀ st : List Video, Videos.list st "" = st.map (fun v => v.id)) ∧
    Videos.containsSub (Videos.lowerStr "CAT".toList)
      (Videos.lowerStr "Cats are great".toList) = true := by
  exact ⟨fun needle => containsSub_iff needle, fun st f => rfl,
    list_empty_filter, by decide⟩

/-- Claim C4 counterexample: with two records sharing id "dup" (likes 0
and 3), `videos.like("dup")` increments the EARLIER match as well — its
likes go from 0 to 1 — so it is false that only the last match is
incremented. -/
theorem like_duplicate_first_also_incremented :
    ((Videos.like [dupFirst, dupSecond] "dup")[0]?).map Video.likes = some 1 ∧
    (([dupFirst, dupSecond] : List Video)[0]?).map Video.likes = some 0 ∧
    ((Videos.like [dupFirst, dupSecond] "dup")[1]?).map Video.likes = some 4 := by
  decide

/-- Claim C4 (amended): the non-breaking scan of `videos.like(id)`
increments EVERY record whose id matches, each by exactly 1, after the
full scan; non-matching records are untouched. -/
theorem like_duplicates_increment_all (st : List Video) (i : String)
    (k : Nat) (v : Video) (hk : st[k]? = some v) :
    (Videos.like st i)[k]? =
      some (if v.id = i then { v with likes := v.likes + 1 } else v) := by
  rw [Videos.like, List.getElem?_map, hk, Option.map_some']
  rfl

/-- Witness for the amended C4 at the duplicate-id store. -/
theorem like_duplicates_increment_all_witness :
    ([dupFirst, dupSecond] : List Video)[0]? = some dupFirst ∧
    (Videos.like [dupFirst, dupSecond] "dup")[0]? =
      some (if dupFirst.id = "dup" then { dupFirst with likes := dupFirst.likes + 1 }
            else dupFirst) :=
  ⟨by decide,
    like_duplicates_increment_all [dupFirst, dupSecond] "dup" 0 dupFirst (by decide)⟩

/-- Claim C5: for a collection in which the id occurs exactly once,
`videos.like(id)` and `videos.dislike(id)` preserve the length and the
position of every record; every non-matching record is completely
unchanged, and the matching record keeps its id, title, extra fields and
the untouched counter (only the voted counter changes). -/
theorem like_dislike_frame (st : List Video) (i : String)
    (huniq : (st.filter (fun v => v.id == i)).length = 1) :
    (Videos.like st i).length = st.length ∧
    (Videos.dislike st i).length = st.length ∧
    ∀ (k : Nat) (v : Video), st[k]? = some v →
      (v.id ≠ i → (Videos.like st i)[k]? = some v ∧
                   (Videos.dislike st i)[k]? = some v) ∧
      (v.id = i →
        (Videos.like st i)[k]? = some { v with likes := v.likes + 1 } ∧
        (Videos.dislike st i)[k]? = some { v with dislikes := v.dislikes + 1 }) := by
  refine ⟨List.length_map st (Videos.stepLike i),
    List.length_map st (Videos.stepDislike i), ?_⟩
  intro k v hk
  constructor
  · intro hne
    constructor
    · rw [Videos.like, List.getElem?_map, hk, Option.map_some', Videos.stepLike,
        if_neg hne]
    · rw [Videos.dislike, List.getElem?_map, hk, Option.map_some', Videos.stepDislike,
        if_neg hne]
  · intro heq
    constructor
    · rw [Videos.like, List.getElem?_map, hk, Option.map_some', Videos.stepLike,
        if_pos heq]
    · rw [Videos.dislike, List.getElem?_map, hk, Option.map_some', Videos.stepDislike,
        if_pos heq]

/-- Witness for C5: in the two-record store, liking "a" leaves record "b"
untouched and preserves the length. -/
theorem like_dislike_frame_witness :
    (([vA, vB].filter (fun v => v.id == "a")).length = 1) ∧
    (Videos.like [vA, vB] "a").length = ([vA, vB] : List Video).length ∧
    (Videos.like [vA, vB] "a")[1]? = some vB ∧
    (Videos.dislike [vA, vB] "a")[1]? = some vB := by
  have h := like_dislike_frame [vA, vB] "a" (by decide)
  have h2 := (h.2.2 1 vB (by decide)).1 (by decide)
  exact ⟨by decide, h.1, h2.1, h2.2⟩

/-- Claim C6: starting from a collection whose likes and dislikes are all
non-negative, every Store operation (list, get, like, dislike) leaves all
counters non-negative, and no operation ever decreases any record's
counter (positionwise monotone non-decreasing). -/
theorem counters_nonneg_monotone (op : Op) (st : List Video)
    (h : ∀ v ∈ st, 0 ≤ v.likes ∧ 0 ≤ v.dislikes) :
    (∀ w ∈ op.apply st, 0 ≤ w.likes ∧ 0 ≤ w.dislikes) ∧
    (∀ (k : Nat) (v w : Video), st[k]? = some v → (op.apply st)[k]? = some w →
      v.likes ≤ w.likes ∧ v.dislikes ≤ w.dislikes) := by
  cases op with
  | list f =>
    refine ⟨h, ?_⟩
    intro k v w hv hw
    rw [show Op.apply (Op.list f) st = st from rfl, hv] at hw
    injection hw with hw
    subst hw
    exact ⟨le_refl v.likes, le_refl v.dislikes⟩
  | get i =>
    refine ⟨h, ?_⟩
    intro k v w hv hw
    rw [show Op.apply (Op.get i) st = st from rfl, hv] at hw
    injection hw with hw
    subst hw
    exact ⟨le_refl v.likes, le_refl v.dislikes⟩
  | like i =>
    constructor
    · intro w hw
      rw [show Op.apply (Op.like i) st = st.map (Videos.stepLike i) from rfl] at hw
      rcases List.mem_map.mp hw with ⟨v, hv, rfl⟩
      have hv0 := h v hv
      rw [Videos.stepLike]
      split
      · refine ⟨?_, hv0.2⟩
        have := hv0.1
        show 0 ≤ v.likes + 1
        omega
      · exact hv0
    · intro k v w hv hw
      rw [show Op.apply (Op.like i) st = st.map (Videos.stepLike i) from rfl,
        List.getElem?_map, hv, Option.map_some'] at hw
      injection hw with hw
      subst hw
      rw [Videos.stepLike]
      split
      · exact ⟨by show v.likes ≤ v.likes + 1; omega, le_refl v.dislikes⟩
      · exact ⟨le_refl v.likes, le_refl v.dislikes⟩
  | dislike i =>
    constructor
    · intro w hw
      rw [show Op.apply (Op.dislike i) st = st.map (Videos.stepDislike i) from rfl] at hw
      rcases List.mem_map.mp hw with ⟨v, hv, rfl⟩
      have hv0 := h v hv
      rw [Videos.stepDislike]
      split
      · refine ⟨hv0.1, ?_⟩
        have := hv0.2
        show 0 ≤ v.dislikes + 1
        omega
      · exact hv0
    · intro k v w hv hw
      rw [show Op.apply (Op.dislike i) st = st.map (Videos.stepDislike i) from rfl,
        List.getElem?_map, hv, Option.map_some'] at hw
      injection hw with hw
      subst hw
      rw [Videos.stepDislike]
      split
      · exact ⟨le_refl v.likes, by show v.dislikes ≤ v.dislikes + 1; omega⟩
      · exact ⟨le_refl v.likes, le_refl v.dislikes⟩

/-- Witness for C6: the sample store has non-negative counters, and the
like operation keeps them non-negative. -/
theorem counters_nonneg_monotone_witness :
    (∀ v ∈ ([vA, vB] : List Video), 0 ≤ v.likes ∧ 0 ≤ v.dislikes) ∧
    (∀ w ∈ (Op.like "a").apply [vA, vB], 0 ≤ w.likes ∧ 0 ≤ w.dislikes) := by
  have h := counters_nonneg_monotone (Op.like "a") [vA, vB] (by decide)
  exact ⟨by decide, h.1⟩

theorem map_eq_self_of_ne {i : String} (g : String → Video → Video)
    (hg : ∀ v, v.id ≠ i → g i v = v) :
    ∀ (l : List Video), (∀ v ∈ l, v.id ≠ i) → l.map (g i) = l := by
  intro l
  induction l with
  | nil => intro _; rfl
  | cons u rest ih =>
    intro hl
    rw [List.map_cons, hg u (hl u (List.mem_cons_self u rest)),
      ih (fun v hv => hl v (List.mem_cons_of_mem u hv))]

/-- Claim C8: when no record has the requested id, `videos.like(id)` and
`videos.dislike(id)` write the collection back completely unchanged, and
the like/dislike endpoints still answer "OK" with status 200 (recording
their counter increment regardless). -/
theorem like_dislike_missing_id_noop (st : List Video) (i : String)
    (h : ∀ v ∈ st, v.id ≠ i) :
    Videos.like st i = st ∧ Videos.dislike st i = st ∧
    like_video st i = { state := st, body := "OK", status := 200,
                        counter := ("video_likes", i) } ∧
    dislike_video st i = { state := st, body := "OK", status := 200,
                           counter := ("video_dislikes", i) } := by
  have hlike : Videos.like st i = st :=
    map_eq_self_of_ne Videos.stepLike
      (fun v hv => by rw [Videos.stepLike, if_neg hv]) st h
  have hdislike : Videos.dislike st i = st :=
    map_eq_self_of_ne Videos.stepDislike
      (fun v hv => by rw [Videos.stepDislike, if_neg hv]) st h
  refine ⟨hlike, hdislike, ?_, ?_⟩
  · rw [like_video, hlike]
    rfl
  · rw [dislike_video, hdislike]
    rfl

/-- Witness for C8 at a store that does not contain the id "zzz". -/
theorem like_dislike_missing_id_noop_witness :
    Videos.like [vA, vB] "zzz" = [vA, vB] ∧
    (like_video [vA, vB] "zzz").body = "OK" ∧
    (like_video [vA, vB] "zzz").status = 200 ∧
    (dislike_video [vA, vB] "zzz").state = [vA, vB] := by
  have h := like_dislike_missing_id_noop [vA, vB] "zzz" (by decide)
  exact ⟨h.1, by rw [h.2.2.1], by rw [h.2.2.1], by rw [h.2.2.2]⟩

/-- Claim C7: the index view returns the fetched videos sorted in
descending order of net score (likes minus dislikes); under unique ids it
is a permutation of the store; ties are broken by original list order
universally (any two records with equal net score that appear in store
order appear in the same order in the rendered list — the sort is
stable); and on the spec's example A(5,1) B(3,0) C(5,5) the rendered
order is A, B, C. -/
theorem index_net_score_order :
    (∀ (st l : List Video), index st = some l →
        l.Pairwise (fun a b => netScore b ≤ netScore a)) ∧
    (∀ st : List Video, (st.map Video.id).Nodup →
        ∃ l, index st = some l ∧ l.Perm st) ∧
    (∀ (st l : List Video), (st.map Video.id).Nodup → index st = some l →
        ∀ a b : Video, netScore a = netScore b →
          List.Sublist [a, b] st → List.Sublist [a, b] l) ∧
    index [vA, vB, vC] = some [vA, vB, vC] ∧
    index [tieFirst, tieSecond] = some [tieFirst, tieSecond] := by
  refine ⟨?_, ?_, ?_, ?_, ?_⟩
  · intro st l hl
    rw [index] at hl
    cases hf : fetchAll st (Videos.list st "") with
    | none => rw [hf] at hl; cases hl
    | some vs =>
      rw [hf, Option.map_some'] at hl
      injection hl with hl
      subst hl
      have hp := List.sorted_mergeSort netCmp_trans netCmp_total vs
      exact hp.imp (fun h => of_decide_eq_true h)
  · intro st hnd
    exact ⟨st.mergeSort (fun a b => decide (netScore b ≤ netScore a)),
      index_of_nodup st hnd,
      List.mergeSort_perm st (fun a b => decide (netScore b ≤ netScore a))⟩
  · intro st l hnd hl a b hnet hab
    rw [index_of_nodup st hnd] at hl
    injection hl with hl
    subst hl
    exact List.pair_sublist_mergeSort netCmp_trans netCmp_total
      (decide_eq_true (le_of_eq hnet.symm)) hab
  · rw [index_of_nodup [vA, vB, vC] (by decide)]
    simp [List.mergeSort, List.merge, vA, vB, vC, netScore]
  · rw [index_of_nodup [tieFirst, tieSecond] (by decide)]
    simp [List.mergeSort, List.merge, tieFirst, tieSecond, netScore]

/-- Witness for C7: the unique-id branch applied to the concrete
three-record store yields a sorted permutation, and the universal
stability branch applied to the concrete tie store keeps the
equal-net-score pair in original order. -/
theorem index_net_score_order_witness :
    (∃ l, index [vA, vB, vC] = some l ∧ l.Perm [vA, vB, vC]) ∧
    List.Sublist [tieFirst, tieSecond] [tieFirst, tieSecond] := by
  refine ⟨index_net_score_order.2.1 [vA, vB, vC] (by decide), ?_⟩
  exact index_net_score_order.2.2.1 [tieFirst, tieSecond] [tieFirst, tieSecond]
    (by decide) index_net_score_order.2.2.2.2 tieFirst tieSecond (by decide)
    (List.Sublist.refl [tieFirst, tieSecond])

/-- Claim C9 counterexample: the histogram created in `app.py` is named
"get_video_latency_milliseconds", not the claimed
"get_video_video_latency_milliseconds". -/
theorem histogram_name_counterexample :
    meter_latency_get.name = "get_video_latency_milliseconds" ∧
    meter_latency_get.name ≠ "get_video_video_latency_milliseconds" := by
  exact ⟨rfl, by decide⟩

/-- Claim C9 (amended): the instrumentation creates counters named
"video_likes" and "video_dislikes" and a histogram named
"get_video_latency_milliseconds" with unit "ms" that the Get handler
records its latency to, and the periodic batched export is configured
with a 15000 ms interval and a 5000 ms timeout. -/
theorem instrumentation_config :
    meter_likes.name = "video_likes" ∧
    meter_dislikes.name = "video_dislikes" ∧
    meter_latency_get.name = "get_video_latency_milliseconds" ∧
    meter_latency_get.unit = "ms" ∧
    (∀ (st : List Video) (i : String),
      (get_video_details st i).2 = meter_latency_get.name) ∧
    instrumentationReader.export_interval_millis = 15000 ∧
    instrumentationReader.export_timeout_millis = 5000 :=
  ⟨rfl, rfl, rfl, rfl, fun _ _ => rfl, rfl, rfl⟩

/-- Claim C10: when several records share the requested id, `videos.get`
returns the FIRST matching record in file order — the scan returns on the
first match. -/
theorem get_returns_first_match (pre : List Video) (v : Video) (post : List Video)
    (i : String) (hpre : ∀ u ∈ pre, u.id ≠ i) (hv : v.id = i) :
    Videos.get (pre ++ v :: post) i = .ok v := by
  induction pre with
  | nil => simp [Videos.get, hv]
  | cons u rest ih =>
    have hu : u.id ≠ i := hpre u (List.mem_cons_self u rest)
    rw [List.cons_append]
    simp only [Videos.get, if_neg hu]
    exact ih (fun w hw => hpre w (List.mem_cons_of_mem u hw))

/-- Witness for C10: with two records of id "dup" behind a non-matching
record, get returns the first duplicate, not the second. -/
theorem get_returns_first_match_witness :
    Videos.get [vB, dupFirst, dupSecond] "dup" = .ok dupFirst := by
  have h := get_returns_first_match [vB] dupFirst [dupSecond] "dup"
    (by decide) (by decide)
  exact h
